import Mathlib

/-!
Shallow embedding of the image pull pipeline of the `images` package
(`Pull`, `CleanupInProgressLayers`, `SaveSequential`, `SaveConcurrent`).

Filesystem paths are modelled as lists of components (`filepath.Join`
appends components).  External library primitives (crane, the docker
client, the filesystem layer cache, SHA-256 hashing, layout writing)
are modelled as explicit outcome oracles, and machine strings at the
character level.
-/

namespace Zarf

/-- A filesystem path: its list of components.  `filepath.Join` appends components. -/
abbrev FPath := List String

/-! ## Layer accounting of the fetch phase (Pull, lines 72–73 and 181–197) -/

/-- A fetched image layer as the accounting loop sees it: digest hex and size
(`layer.Digest().Hex` and `layer.Size()`). -/
structure LayerM where
  hex : String
  size : Int
deriving DecidableEq

/-- The mutex-protected accounting section of one fetch worker (`Pull`, lines 181–197):
for each layer of one image, if the digest hex is not in the shared dedup set,
insert it and add the layer size to the running byte total.  The state is the
pair (dedup set `shas`, accumulated `totalBytes` contribution). -/
def accountLayers (st : List String × Int) (layers : List LayerM) : List String × Int :=
  layers.foldl
    (fun st l => if l.hex ∈ st.1 then st else (l.hex :: st.1, st.2 + l.size)) st

/-- The shared layer accounting of the fetch phase over a whole batch.  Because the
check-and-insert and the size addition happen inside one critical section held
for the whole per-image loop, a concurrent execution is exactly a sequential
execution of the per-image sections in some interleaving order; the batch list
order is that (arbitrary) interleaving. -/
def pullAccounting (images : List (List LayerM)) : List String × Int :=
  images.foldl accountLayers ([], 0)

/-- The sublist of layers that are the first occurrence of their digest (relative
to digests already seen): the layers the accounting loop actually charges. -/
def firstOcc : List LayerM → List String → List LayerM
  | [], _ => []
  | l :: ls, seen =>
    if l.hex ∈ seen then firstOcc ls seen else l :: firstOcc ls (l.hex :: seen)

/-! ## Image references and registry overrides (Pull, lines 86–91) -/

/-- One requested image (`transform.Image` as consumed by `Pull`): raw reference
string, resolved name, tag and digest. -/
structure RefInfo where
  Reference : String
  Name : String
  Tag : String
  Digest : String
deriving DecidableEq

/-- Whether `pat` is a leading segment of `s` (character-level model of the Go builtin
`strings.HasPrefix`; the pattern is the first argument). -/
def isPre : List Char → List Char → Bool
  | [], _ => true
  | _ :: _, [] => false
  | a :: as, b :: bs => a == b && isPre as bs

/-- `strings.HasPrefix(s, pat)` at the character level. -/
def strStarts (s pat : String) : Bool := isPre pat.toList s.toList

/-- `strings.HasSuffix(s, pat)` at the character level. -/
def strEnds (s pat : String) : Bool := isPre pat.toList.reverse s.toList.reverse

/-- `len(s)` in characters. -/
def strLen (s : String) : Nat := s.toList.length

/-- Drop the first `n` characters of `s`. -/
def strDropChars (s : String) (n : Nat) : String := String.mk (s.toList.drop n)

/-- Registry override substitution (`Pull`, lines 86–91): iterate every
(key, value) pair of the override map in iteration order; whenever the raw
reference starts with the key, set the result to
`strings.Replace(refInfo.Reference, k, v, 1)`.  Under the `HasPrefix` guard the
first occurrence of `k` in the reference is at position 0, so each such call
rewrites the matched leading segment of the ORIGINAL reference (not of the
accumulated result). -/
def rewriteReference (raw : String) (overrides : List (String × String)) : String :=
  overrides.foldl
    (fun ref kv =>
      if strStarts raw kv.1 then kv.2 ++ (strDropChars raw (strLen kv.1)) else ref)
    raw

/-- The override substitution as the claim words it, for refinement comparison
with `rewriteReference`: the FIRST pair whose key matches rewrites the
reference, and scanning stops there. -/
def rewriteReferenceFirstMatch (raw : String) (overrides : List (String × String)) : String :=
  match overrides.find? (fun kv => strStarts raw kv.1) with
  | some kv => kv.2 ++ (strDropChars raw (strLen kv.1))
  | none => raw

/-! ## The per-reference source resolver (Pull, lines 93–166) -/

/-- One platform/digest entry of a parsed index manifest. -/
structure PlatformDesc where
  platform : String
  digest : String
deriving DecidableEq

/-- A remote descriptor (`crane.Get` result): its media type, and the result of
`json.Unmarshal(desc.Manifest, &idx)` when attempted (`none` models an
unmarshal failure). -/
structure RemoteDesc where
  mediaType : String
  indexManifest : Option (List PlatformDesc)

/-- `types.OCIImageIndex` (registry library constant). -/
def ociImageIndexMT : String := "application/vnd.oci.image.index.v1+json"

/-- `types.DockerManifestList` (registry library constant). -/
def dockerManifestListMT : String := "application/vnd.docker.distribution.manifest.list.v2+json"

/-- `types.MediaType.IsIndex` from the registry library (black box): true exactly
for the OCI image index and the Docker manifest list media types. -/
def isIndexMediaType (mt : String) : Bool :=
  mt == ociImageIndexMT || mt == dockerManifestListMT

/-- `strings.HasSuffix` checks of `Pull` line 97: recognized archive suffixes. -/
def hasTarSuffix (ref : String) : Bool :=
  strEnds ref ".tar" || strEnds ref ".tar.gz" || strEnds ref ".tgz"

/-- Whether `sub` occurs inside `s` (character-level helper for `strings.Contains`). -/
def hasSub (s sub : List Char) : Bool :=
  match s with
  | [] => sub.isEmpty
  | _ :: t => isPre sub s || hasSub t sub

/-- `strings.Contains(s, sub)`. -/
def strContains (s sub : String) : Bool := hasSub s.toList sub.toList

/-- The substring `Pull` line 109 looks for in a failed `crane.Get` error. -/
def rateLimitNeedle : String := "unexpected status code 429 Too Many Requests"

/-- Outcomes of the external calls one resolver invocation can make; images are
abstract handles (strings).  Each field models one library primitive:
`crane.Load`, `name.ParseReference`, `crane.Get`, `crane.Pull`,
`client.NewClientWithOpts`, `cli.ImageInspectWithRaw` (returning the size) and
`daemon.Image`. -/
structure ResolveEnv where
  load : String → Except String String
  parseRef : String → Except String Unit
  get : String → Except String RemoteDesc
  pull : String → Except String String
  newDaemonClient : Except String Unit
  inspectImage : String → Except String Int
  daemonImage : String → Except String String

/-- The error classes a resolver invocation can return (`Pull`, lines 97–166). -/
inductive PullErr
  | loadFailed (ref e : String)
  | parseFailed (e : String)
  | rateLimited (e : String)
  | dockerUnavailable (e : String)
  | inspectFailed (e : String)
  | daemonLoadFailed (e : String)
  | pullFailed (ref e : String)
  | unmarshalFailed (e : String)
  | resolvedToIndex (ref : String)
deriving DecidableEq

/-- Observable side effects of one resolver invocation: emitted warnings and the
attempt to connect to the local docker daemon. -/
inductive Effect
  | warn (msg : String)
  | daemonConnect
deriving DecidableEq

/-- The display name built for the index listing (`Pull`, lines 157–160). -/
def indexDisplayName (ri : RefInfo) : String :=
  if ri.Tag != "" then ri.Name ++ ":" ++ ri.Tag else ri.Name

/-- The listing lines built for a rejected index (`Pull`, lines 156–163). -/
def indexLines (ri : RefInfo) (manifests : List PlatformDesc) : List String :=
  "The following images are available in the index:" ::
    manifests.map (fun d =>
      "\n(" ++ d.platform ++ ") " ++ indexDisplayName ri ++ "@" ++ d.digest)

/-- The size warning of `Pull` lines 129–133 (text abbreviated; the byte-format
rendering of the size is not modelled). -/
def sizeWarning (ref : String) : String :=
  ref ++ " is large and may take a very long time to load via docker."

/-- The index rejection check of `Pull`, lines 149–166: only performed when a
remote descriptor is present (`desc != nil`), a digest was explicitly requested
and the media type of the descriptor is an index. -/
def indexCheck (ri : RefInfo) (desc : Option RemoteDesc) (img : String)
    (effs : List Effect) : List Effect × Except PullErr String :=
  match desc with
  | none => (effs, .ok img)
  | some d =>
    if ri.Digest != "" && isIndexMediaType d.mediaType then
      let effs := effs ++
        [Effect.warn "Zarf does not currently support direct consumption of OCI image indexes or Docker manifest lists"]
      match d.indexManifest with
      | none => (effs, .error (.unmarshalFailed "unable to unmarshal index manifest"))
      | some manifests =>
        (effs ++ [Effect.warn (String.intercalate "\n" (indexLines ri manifests))],
         .error (.resolvedToIndex ri.Reference))
    else (effs, .ok img)

/-- The per-reference resolver body of one fetch worker (`Pull`, lines 86–166):
override substitution, tarball load, remote descriptor fetch with the 429
short-circuit and the docker-daemon fallback, remote pull, then the index
rejection check.  Returns the emitted effects and the fetched image or error. -/
def resolveRef (env : ResolveEnv) (overrides : List (String × String)) (ri : RefInfo) :
    List Effect × Except PullErr String :=
  let ref := rewriteReference ri.Reference overrides
  if hasTarSuffix ref then
    match env.load ref with
    | .error e => ([], .error (.loadFailed ri.Reference e))
    | .ok img => indexCheck ri none img []
  else
    match env.parseRef ref with
    | .error e => ([], .error (.parseFailed e))
    | .ok _ =>
      match env.get ref with
      | .error e =>
        if strContains e rateLimitNeedle then
          ([], .error (.rateLimited e))
        else
          let effs := [Effect.warn
              ("Falling back to local docker, failed to find the manifest on a remote: " ++ e),
            Effect.daemonConnect]
          match env.newDaemonClient with
          | .error e2 => (effs, .error (.dockerUnavailable e2))
          | .ok _ =>
            match env.inspectImage ref with
            | .error e2 => (effs, .error (.inspectFailed e2))
            | .ok size =>
              let effs := effs ++
                (if size > 750 * 1000 * 1000 then [Effect.warn (sizeWarning ref)] else [])
              match env.daemonImage ref with
              | .error e2 => (effs, .error (.daemonLoadFailed e2))
              | .ok img => indexCheck ri none img effs
      | .ok desc =>
        match env.pull ref with
        | .error e => ([], .error (.pullFailed ri.Reference e))
        | .ok img => indexCheck ri (some desc) img []

/-- The result-map update of one fetch worker (`Pull`, line 203): the entry is
inserted only when the worker did not return an error. -/
def workerInsert (ri : RefInfo) (res : List Effect × Except PullErr String)
    (fetched : List (RefInfo × String)) : List (RefInfo × String) :=
  match res.2 with
  | .ok img => (ri, img) :: fetched
  | .error _ => fetched

/-! ## Save strategies (SaveSequential lines 319–334, SaveConcurrent lines 337–376) -/

/-- `ocispec.AnnotationBaseImageName`. -/
def baseImageNameKey : String := "org.opencontainers.image.base.name"

/-- Outcome oracles for one `SaveSequential` attempt: whether `cl.AppendImage`
fails for a given image, and whether the `CleanupInProgressLayers` call on the
failure path fails (both external effects). -/
structure SeqEnv where
  appendErr : RefInfo → Option String
  cleanupErr : RefInfo → Option String

/-- The result of one `SaveSequential` attempt: the saved map, the layout
entries appended (image handle with its annotations), the warnings emitted by
failed cleanups, and the returned error. -/
structure SeqResult where
  saved : List (RefInfo × String)
  layout : List (String × List (String × String))
  warnings : List String
  err : Option String

/-- `SaveSequential` (source lines 319–334): iterate the map; append each image
with a base-image-name annotation equal to its raw reference; on the first
append failure run layer cleanup (a cleanup failure is only a warning), stop,
and return the images saved so far together with the append error. -/
def SaveSequentialM (e : SeqEnv) : List (RefInfo × String) → SeqResult
  | [] => ⟨[], [], [], none⟩
  | (info, img) :: rest =>
    match e.appendErr info with
    | some er =>
      ⟨[], [],
       (match e.cleanupErr info with
        | some ce => [ce]
        | none => []),
       some er⟩
    | none =>
      let r := SaveSequentialM e rest
      ⟨(info, img) :: r.saved,
       (img, [(baseImageNameKey, info.Reference)]) :: r.layout,
       r.warnings, r.err⟩

/-- Outcome oracles for one `SaveConcurrent` attempt: whether
the descriptor computation, `cl.WriteImage` and `cl.AppendDescriptor` succeed for a
given image. -/
structure ConcEnv where
  descOk : RefInfo → Bool
  writeOk : RefInfo → Bool
  appendOk : RefInfo → Bool

/-- Whether one `SaveConcurrent` task succeeds for an image (all three steps). -/
def concImageOk (e : ConcEnv) (i : RefInfo) : Bool :=
  e.descOk i && e.writeOk i && e.appendOk i

/-- `SaveConcurrent` (source lines 337–376): one bounded task per image; the
mutex-guarded `saved[info] = img` runs exactly for the tasks whose steps all
succeed; `eg.Wait()` reports an error iff some task failed (already-succeeded
saves are not rolled back). -/
def SaveConcurrentM (e : ConcEnv) (m : List (RefInfo × String)) :
    List (RefInfo × String) × Bool :=
  (m.filter (fun p => concImageOk e p.1), m.all (fun p => concImageOk e p.1))

/-- The remainder computation of `Pull` lines 223–225 and 231–233: delete every
saved key from the work set. -/
def removeSaved (toPull saved : List (RefInfo × String)) : List (RefInfo × String) :=
  toPull.filter (fun p => decide (p.1 ∉ saved.map Prod.fst))

/-- The saved sets of the executed save attempts (in order) and whether the
whole save orchestration succeeded. -/
structure OrchResult where
  attempts : List (List (RefInfo × String))
  ok : Bool

/-- The save orchestration of `Pull`, lines 219–243: `helpers.Retry` runs
`SaveConcurrent` up to 2 attempts (the saved keys of each attempt are deleted from
the work set before the next), and only if both fail, `SaveSequential` over the
remainder, itself up to 2 attempts.  Each attempt carries its own outcome
oracles, since external outcomes vary over time (that is what retrying is for). -/
def pullSaveOrchestration (e1 e2 : ConcEnv) (s1 s2 : SeqEnv)
    (fetched : List (RefInfo × String)) : OrchResult :=
  let r1 := SaveConcurrentM e1 fetched
  let t1 := removeSaved fetched r1.1
  if r1.2 then ⟨[r1.1], true⟩
  else
    let r2 := SaveConcurrentM e2 t1
    let t2 := removeSaved t1 r2.1
    if r2.2 then ⟨[r1.1, r2.1], true⟩
    else
      let r3 := SaveSequentialM s1 t2
      let t3 := removeSaved t2 r3.saved
      if r3.err.isNone then ⟨[r1.1, r2.1, r3.saved], true⟩
      else
        let r4 := SaveSequentialM s2 t3
        ⟨[r1.1, r2.1, r3.saved, r4.saved], r4.err.isNone⟩

/-! ## Cleanup of in-progress layers (CleanupInProgressLayers, lines 281–316) -/

/-- Result of `os.Stat` on one cache location: missing file, another stat
error, or a present file with its size. -/
inductive StatR
  | absent
  | statFailed (e : String)
  | file (size : Int)
deriving DecidableEq

/-- A layer as the cleanup loop sees it: digest hex and recorded size. -/
structure CLayer where
  hex : String
  size : Int
deriving DecidableEq

/-- `digest.String()` of the registry library: algorithm, colon, hex. -/
def digestString (hex : String) : String := "sha256:" ++ hex

/-- Modelled from the spec: `layout.ImagesDir`, the images subdirectory of the
cache (the layout package is not under src/). -/
def imagesSubdir : String := "images"

/-- The location cleanup stats for a layer (source lines 298–299):
`filepath.Join(config.GetAbsCachePath(), layout.ImagesDir, digest.String())`.
The process-global absolute cache path (`config.GetAbsCachePath()`, not under
src/) is the explicit first argument. -/
def layerCacheLocation (globalCachePath : FPath) (l : CLayer) : FPath :=
  globalCachePath ++ [imagesSubdir, digestString l.hex]

/-- What one cleanup task did to the cache file of its layer: left it alone,
deleted it, failed to delete it (`os.Remove` error, wrapped by the source), or
failed at the stat. -/
inductive CleanupAct
  | untouched
  | removed
  | removeFailed (e : String)
  | failed (e : String)
deriving DecidableEq

/-- The body of one cleanup task (source lines 289–313): stat the cache
location; a missing file is a no-op; any other stat error is returned; on a
size mismatch the file is removed, and a removal failure is returned wrapped
as `failed to remove incomplete layer <hex>: <err>` (lines 307–311); a
matching size leaves the file untouched.  `remove` is the `os.Remove` outcome
oracle (`none` = success). -/
def cleanupLayer (stat : FPath → StatR) (remove : FPath → Option String)
    (globalCachePath : FPath) (l : CLayer) : CleanupAct :=
  match stat (layerCacheLocation globalCachePath l) with
  | .absent => .untouched
  | .statFailed e => .failed e
  | .file sz =>
    if sz ≠ l.size then
      match remove (layerCacheLocation globalCachePath l) with
      | some e => .removeFailed ("failed to remove incomplete layer " ++ l.hex ++ ": " ++ e)
      | none => .removed
    else .untouched

/-- The error one cleanup task returns upward, if any: a stat failure or a
wrapped removal failure. -/
def cleanupActErr : CleanupAct → Option String
  | .failed e => some e
  | .removeFailed e => some e
  | _ => none

/-- `CleanupInProgressLayers` over all layers of an image: the per-layer
actions, and the error `eg.Wait()` propagates (the error of some failed task;
determinized here as the first in layer order). -/
def CleanupInProgressLayersM (stat : FPath → StatR) (remove : FPath → Option String)
    (globalCachePath : FPath) (layers : List CLayer) : List CleanupAct × Option String :=
  let acts := layers.map (cleanupLayer stat remove globalCachePath)
  (acts, acts.findSome? cleanupActErr)

/-- The cache paths cleanup inspects for the layers of an image (source lines
298–300). -/
def cleanupInspectedPaths (globalCachePath : FPath) (layers : List CLayer) : List FPath :=
  layers.map (layerCacheLocation globalCachePath)

/-- The configuration `Pull` receives (`PullConfig`, fields as used by the
source; the struct declaration itself is not under src/). -/
structure PullConfig where
  ImageList : List RefInfo
  DestinationDirectory : FPath
  CacheDirectory : FPath
  RegistryOverrides : List (String × String)
  Arch : String

/-- Cleanup as invoked during a `Pull` with configuration `cfg`: the call sites
(the failure paths of `SaveSequential` and `SaveConcurrent`) pass nothing from
`cfg` — the inspected locations are derived from the process-global cache path
only. -/
def pullCleanupInspectedPaths (globalCachePath : FPath) (_cfg : PullConfig)
    (layers : List CLayer) : List FPath :=
  cleanupInspectedPaths globalCachePath layers

/-- Modelled from the spec: the Layer Cache (`cache.NewFilesystemCache`,
wrapping the image at `Pull` line 168) stores layer blobs in the single cache
directory supplied to `Pull`, keyed by layer digest. -/
def layerCacheWriteLocation (cfg : PullConfig) (l : CLayer) : FPath :=
  cfg.CacheDirectory ++ [digestString l.hex]

/-! ## Blob hash repair pass (Pull, lines 254–275) -/

/-- `filepath.Join(cfg.DestinationDirectory, "images", "blobs", "sha256")`
(source line 254). -/
def blobDirectory (dest : FPath) : FPath := dest ++ ["images", "blobs", "sha256"]

/-- Look a path up in a modelled filesystem (association list from absolute
paths to file contents). -/
def lookupFs (fs : List (FPath × String)) (p : FPath) : Option String :=
  (fs.find? (fun e => decide (e.1 = p))).map Prod.snd

/-- Delete a path from a modelled filesystem. -/
def fsErase (fs : List (FPath × String)) (p : FPath) : List (FPath × String) :=
  fs.filter (fun e => decide (e.1 ≠ p))

/-- Create/overwrite a file in a modelled filesystem. -/
def fsInsert (fs : List (FPath × String)) (p : FPath) (c : String) : List (FPath × String) :=
  (p, c) :: fsErase fs p

/-- The name of `p` when it lies directly under `dir`. -/
def underDir (dir : FPath) (p : FPath) : Option String :=
  if p.take dir.length = dir then
    match p.drop dir.length with
    | [n] => some n
    | _ => none
  else none

/-- Character-level lexicographic order on char lists. -/
def charLeList : List Char → List Char → Bool
  | [], _ => true
  | _ :: _, [] => false
  | a :: as, b :: bs => if a == b then charLeList as bs else decide (a.toNat < b.toNat)

/-- Lexicographic order on strings (character level). -/
def strLe (a b : String) : Bool := charLeList a.toList b.toList

/-- Insertion into a lexically sorted name list. -/
def insertSorted (x : String) : List String → List String
  | [] => [x]
  | y :: ys => if strLe x y then x :: y :: ys else y :: insertSorted x ys

/-- Lexically sorted names, as `filepath.Walk` visits directory entries. -/
def sortNames (l : List String) : List String := l.foldr insertSorted []

/-- The blob hash repair pass of `Pull`, lines 254–272, on a modelled
filesystem.  `h` models `helpers.GetSHA256Hash` (an external black box) on file
contents.  `filepath.Walk` reads the directory listing once and visits the
regular files in lexical order (the visit of the directory entry itself is
elided); for each file the source computes the content hash and calls
`os.Rename(path, hash)` — the destination is the BARE hash string, a path
relative to the process working directory `cwd`. -/
def repairPass (h : String → String) (cwd blobDir : FPath)
    (fs : List (FPath × String)) : List (FPath × String) :=
  let names := sortNames (fs.filterMap (fun e => underDir blobDir e.1))
  names.foldl
    (fun fs n =>
      match lookupFs fs (blobDir ++ [n]) with
      | none => fs
      | some c => fsInsert (fsErase fs (blobDir ++ [n])) (cwd ++ [h c]) c)
    fs

/-- The repair pass as the spec describes it, for comparison: rename within the
blob directory, and only when the recomputed hash differs from the current
name. -/
def repairPassSpec (h : String → String) (blobDir : FPath)
    (fs : List (FPath × String)) : List (FPath × String) :=
  let names := sortNames (fs.filterMap (fun e => underDir blobDir e.1))
  names.foldl
    (fun fs n =>
      match lookupFs fs (blobDir ++ [n]) with
      | none => fs
      | some c =>
        if h c = n then fs
        else fsInsert (fsErase fs (blobDir ++ [n])) (blobDir ++ [h c]) c)
    fs

/-! ## Concrete inputs used by witnesses and counterexamples -/

/-- A concrete hash oracle for the repair-pass demonstration. -/
def demoHash : String → String := fun c => if c = "content" then "bbbb" else "cccc"

/-- A concrete blob store for the repair-pass demonstration: one wrongly named
blob and one already correctly named blob. -/
def demoFs : List (FPath × String) :=
  [(blobDirectory ["dst"] ++ ["aaaa"], "content"),
   (blobDirectory ["dst"] ++ ["cccc"], "other")]

/-- Concrete resolver environment for the index-rejection witness. -/
def idxEnv : ResolveEnv where
  load := fun _ => .error "no tarball"
  parseRef := fun _ => .ok ()
  get := fun _ => .ok ⟨ociImageIndexMT, some [⟨"linux/amd64", "sha256:aa"⟩, ⟨"linux/arm64", "sha256:bb"⟩]⟩
  pull := fun _ => .ok "img0"
  newDaemonClient := .ok ()
  inspectImage := fun _ => .ok 1
  daemonImage := fun _ => .ok "img1"

/-- Concrete reference for the index-rejection witness. -/
def idxRef : RefInfo := ⟨"docker.io/foo@sha256:abcd", "docker.io/foo", "", "sha256:abcd"⟩

/-- Concrete resolver environment for the rate-limit witness: the remote
descriptor fetch fails with a 429 error string. -/
def rlEnv : ResolveEnv where
  load := fun _ => .error "no tarball"
  parseRef := fun _ => .ok ()
  get := fun _ => .error "GET https://r/v2/: unexpected status code 429 Too Many Requests"
  pull := fun _ => .error "nope"
  newDaemonClient := .ok ()
  inspectImage := fun _ => .ok 1
  daemonImage := fun _ => .ok "img1"

/-- Concrete reference for the rate-limit witness. -/
def rlRef : RefInfo := ⟨"docker.io/bar:latest", "docker.io/bar", "latest", ""⟩

/-- Concrete references for the save-orchestration witness. -/
def wRef1 : RefInfo := ⟨"a:1", "a", "1", ""⟩

/-- Second concrete reference for the save-orchestration witness. -/
def wRef2 : RefInfo := ⟨"b:2", "b", "2", ""⟩

/-- Concurrent-attempt oracle failing `wRef2` (save-orchestration witness). -/
def wConc : ConcEnv := ⟨fun _ => true, fun i => decide (i ≠ wRef2), fun _ => true⟩

/-- Sequential-attempt oracle failing `wRef2` (save-orchestration witness). -/
def wSeqFail : SeqEnv := ⟨fun i => if i = wRef2 then some "disk full" else none, fun _ => none⟩

/-- Sequential-attempt oracle that always succeeds (save-orchestration witness). -/
def wSeqOk : SeqEnv := ⟨fun _ => none, fun _ => none⟩

/-- Concrete stat oracle for the cleanup witness: the only present file is the
location of digest `dd` with size 7. -/
def wStat : FPath → StatR := fun p =>
  if p = ["gc", imagesSubdir, digestString "dd"] then .file 7
  else if p = ["gc", imagesSubdir, digestString "ee"] then .statFailed "permission denied"
  else .absent

/-- Concrete `os.Remove` oracle for the cleanup witness: removal succeeds. -/
def wRemove : FPath → Option String := fun _ => none

/-- Concrete Pull configuration for the cleanup-independence witness. -/
def wCfg1 : PullConfig := ⟨[], ["d"], ["c1"], [], "amd64"⟩

/-- Second concrete Pull configuration, differing only in CacheDirectory. -/
def wCfg2 : PullConfig := ⟨[], ["d"], ["c2"], [], "amd64"⟩

/-! ## Helper lemmas: layer accounting -/

theorem accountLayers_cons (seen : List String) (t : Int) (l : LayerM) (ls : List LayerM) :
    accountLayers (seen, t) (l :: ls)
      = accountLayers (if l.hex ∈ seen then (seen, t) else (l.hex :: seen, t + l.size)) ls := rfl

theorem accountLayers_eq (layers : List LayerM) (seen : List String) (t : Int) :
    accountLayers (seen, t) layers
      = (((firstOcc layers seen).map LayerM.hex).reverse ++ seen,
         t + ((firstOcc layers seen).map LayerM.size).sum) := by
  induction layers generalizing seen t with
  | nil => simp [accountLayers, firstOcc]
  | cons l ls ih =>
    rw [accountLayers_cons]
    by_cases h : l.hex ∈ seen
    · rw [if_pos h, ih]
      simp [firstOcc, h]
    · rw [if_neg h, ih]
      simp [firstOcc, h, add_assoc]

theorem firstOcc_not_seen (layers : List LayerM) (seen : List String) :
    ∀ x ∈ (firstOcc layers seen).map LayerM.hex, x ∉ seen := by
  induction layers generalizing seen with
  | nil => simp [firstOcc]
  | cons l ls ih =>
    by_cases h : l.hex ∈ seen
    · simpa [firstOcc, h] using ih seen
    · intro x hx
      simp only [firstOcc, h, if_neg, ite_false, List.map_cons, List.mem_cons] at hx
      rcases hx with rfl | hx
      · exact h
      · intro hxseen
        exact ih (l.hex :: seen) x hx (List.mem_cons_of_mem _ hxseen)

theorem firstOcc_nodup (layers : List LayerM) (seen : List String) :
    ((firstOcc layers seen).map LayerM.hex).Nodup := by
  induction layers generalizing seen with
  | nil => simp [firstOcc]
  | cons l ls ih =>
    by_cases h : l.hex ∈ seen
    · simpa [firstOcc, h] using ih seen
    · simp only [firstOcc, h, if_neg, ite_false, List.map_cons, List.nodup_cons]
      refine ⟨fun hmem => ?_, ih (l.hex :: seen)⟩
      exact firstOcc_not_seen ls (l.hex :: seen) _ hmem (List.mem_cons_self _ _)

theorem mem_firstOcc (layers : List LayerM) (seen : List String) (D : String) :
    D ∈ (firstOcc layers seen).map LayerM.hex ↔ D ∈ layers.map LayerM.hex ∧ D ∉ seen := by
  induction layers generalizing seen with
  | nil => simp [firstOcc]
  | cons l ls ih =>
    by_cases h : l.hex ∈ seen
    · simp only [firstOcc, h, ite_true, List.map_cons, List.mem_cons, ih]
      constructor
      · rintro ⟨hm, hs⟩; exact ⟨Or.inr hm, hs⟩
      · rintro ⟨hm | hm, hs⟩
        · exact absurd (hm ▸ h) hs
        · exact ⟨hm, hs⟩
    · simp only [firstOcc, h, ite_false, List.map_cons, List.mem_cons, ih]
      constructor
      · rintro (rfl | ⟨hm, hs⟩)
        · exact ⟨Or.inl rfl, h⟩
        · exact ⟨Or.inr hm, fun hx => hs (Or.inr hx)⟩
      · rintro ⟨hm | hm, hs⟩
        · exact Or.inl hm
        · by_cases hD : D = l.hex
          · exact Or.inl hD
          · refine Or.inr ⟨hm, ?_⟩
            simp only [List.mem_cons, not_or]
            exact ⟨hD, hs⟩

theorem accountLayers_append (st : List String × Int) (l1 l2 : List LayerM) :
    accountLayers st (l1 ++ l2) = accountLayers (accountLayers st l1) l2 :=
  List.foldl_append _ _ _ _

theorem pullAccounting_flatten (images : List (List LayerM)) :
    pullAccounting images = accountLayers ([], 0) images.flatten := by
  suffices h : ∀ st, images.foldl accountLayers st = accountLayers st images.flatten from
    h ([], 0)
  induction images with
  | nil => intro st; rfl
  | cons im ims ih =>
    intro st
    rw [List.flatten_cons, List.foldl_cons, ih, accountLayers_append]

/-! ## C1 -/

/-- C1: during one `Pull` invocation, a layer digest D is charged to the
accumulated byte total exactly once across the whole batch, however the
concurrent per-image critical sections interleave (the batch list is an
arbitrary interleaving order): the dedup set ends up containing D exactly
once, and the total equals the sum of the sizes of the first-seen layer of
each distinct digest — every digest charged once. -/
theorem pull_layer_dedup (images : List (List LayerM)) (D : String)
    (hD : D ∈ images.flatten.map LayerM.hex) :
    (pullAccounting images).1.count D = 1 ∧
    ((firstOcc images.flatten []).map LayerM.hex).Nodup ∧
    (pullAccounting images).2 = ((firstOcc images.flatten []).map LayerM.size).sum := by
  rw [pullAccounting_flatten, accountLayers_eq]
  refine ⟨?_, firstOcc_nodup _ _, by simp⟩
  have hmem : D ∈ (firstOcc images.flatten []).map LayerM.hex :=
    (mem_firstOcc images.flatten [] D).mpr ⟨hD, by simp⟩
  simp only [List.append_nil, List.count_reverse]
  exact List.count_eq_one_of_mem (firstOcc_nodup _ _) hmem

/-- Witness for C1 at a concrete batch: two images share digest d. -/
theorem pull_layer_dedup_witness :
    (pullAccounting [[⟨"d", 5⟩], [⟨"d", 5⟩, ⟨"e", 3⟩]]).1.count "d" = 1 ∧
    ((firstOcc ([[⟨"d", 5⟩], [⟨"d", 5⟩, ⟨"e", 3⟩]] : List (List LayerM)).flatten []).map
      LayerM.hex).Nodup ∧
    (pullAccounting [[⟨"d", 5⟩], [⟨"d", 5⟩, ⟨"e", 3⟩]]).2
      = ((firstOcc ([[⟨"d", 5⟩], [⟨"d", 5⟩, ⟨"e", 3⟩]] : List (List LayerM)).flatten []).map
          LayerM.size).sum :=
  pull_layer_dedup [[⟨"d", 5⟩], [⟨"d", 5⟩, ⟨"e", 3⟩]] "d" (by decide)

/-! ## C6 -/

theorem rewriteReference_append_single (raw : String) (os : List (String × String))
    (p : String × String) :
    rewriteReference raw (os ++ [p])
      = if strStarts raw p.1 then p.2 ++ (strDropChars raw (strLen p.1))
        else rewriteReference raw os := by
  simp [rewriteReference, List.foldl_append]

/-- C6 counterexample: with two overrides whose keys both lead the reference,
the loop applies the LAST matching pair of the iteration order, not the first
one the claim promises. -/
theorem rewrite_first_match_counterexample :
    rewriteReference "docker.io/library/nginx"
        [("docker.io", "one.example"), ("docker.io/library", "two.example")]
      = "two.example/nginx" ∧
    rewriteReferenceFirstMatch "docker.io/library/nginx"
        [("docker.io", "one.example"), ("docker.io/library", "two.example")]
      = "one.example/library/nginx" ∧
    ("two.example/nginx" : String) ≠ "one.example/library/nginx" := by
  refine ⟨?_, ?_, by decide⟩ <;> rfl

/-- C6 amended: the override loop scans all pairs in map-iteration order and
every matching key rewrites the reference starting from the ORIGINAL raw
reference, so the last matching pair of the iteration order determines the
result; at most one substitution is effectively applied, and when no key
matches the reference is unchanged. -/
theorem rewriteReference_last_match (raw : String) (overrides : List (String × String)) :
    rewriteReference raw overrides
      = match (overrides.filter (fun kv => strStarts raw kv.1)).getLast? with
        | some kv => kv.2 ++ (strDropChars raw (strLen kv.1))
        | none => raw := by
  induction overrides using List.reverseRecOn with
  | nil => rfl
  | append_singleton os p ih =>
    rw [rewriteReference_append_single]
    by_cases hp : strStarts raw p.1
    · rw [if_pos hp, List.filter_append]
      simp [hp, List.getLast?_concat]
    · rw [if_neg hp, ih, List.filter_append]
      simp [hp]

/-! ## Helper lemmas: resolver -/

theorem indexCheck_none (ri : RefInfo) (img : String) (effs : List Effect) :
    indexCheck ri none img effs = (effs, .ok img) := rfl

theorem resolveRef_get_error (env : ResolveEnv) (ov : List (String × String))
    (ri : RefInfo) (e : String)
    (hnt : hasTarSuffix (rewriteReference ri.Reference ov) = false)
    (hp : env.parseRef (rewriteReference ri.Reference ov) = .ok ())
    (hg : env.get (rewriteReference ri.Reference ov) = .error e) :
    (strContains e rateLimitNeedle = true →
      resolveRef env ov ri = ([], .error (.rateLimited e))) ∧
    (strContains e rateLimitNeedle = false →
      Effect.daemonConnect ∈ (resolveRef env ov ri).1 ∧
      ∀ r, (resolveRef env ov ri).2 ≠ .error (.resolvedToIndex r)) := by
  constructor
  · intro hc
    simp [resolveRef, hnt, hp, hg, hc]
  · intro hc
    cases hdc : env.newDaemonClient with
    | error e2 => constructor <;> simp [resolveRef, hnt, hp, hg, hc, hdc]
    | ok u =>
      cases hins : env.inspectImage (rewriteReference ri.Reference ov) with
      | error e2 => constructor <;> simp [resolveRef, hnt, hp, hg, hc, hdc, hins]
      | ok size =>
        cases hdi : env.daemonImage (rewriteReference ri.Reference ov) with
        | error e2 =>
          constructor <;> simp [resolveRef, hnt, hp, hg, hc, hdc, hins, hdi]
        | ok img =>
          constructor <;>
            simp [resolveRef, hnt, hp, hg, hc, hdc, hins, hdi, indexCheck]

/-! ## C3 -/

/-- C3: when the remote descriptor fetch succeeds, a specific digest was
requested and the media type of the descriptor is a multi-platform index, the
resolver fails with the index error; the emitted warning carries the listing
built from every platform/digest pair of the index; no entry is added to the
result map; and the rejection can only arise on the remote path — never after
a tarball load, and never after a remote fetch failure (the daemon-fallback
path). -/
theorem index_rejection (env : ResolveEnv) (overrides : List (String × String))
    (ri : RefInfo) (d : RemoteDesc) (manifests : List PlatformDesc) (img : String)
    (fetched : List (RefInfo × String))
    (hnotar : hasTarSuffix (rewriteReference ri.Reference overrides) = false)
    (hparse : env.parseRef (rewriteReference ri.Reference overrides) = .ok ())
    (hget : env.get (rewriteReference ri.Reference overrides) = .ok d)
    (hpull : env.pull (rewriteReference ri.Reference overrides) = .ok img)
    (hdig : ri.Digest ≠ "")
    (hidx : isIndexMediaType d.mediaType = true)
    (hman : d.indexManifest = some manifests) :
    (resolveRef env overrides ri).2 = .error (.resolvedToIndex ri.Reference) ∧
    Effect.warn (String.intercalate "\n" (indexLines ri manifests))
      ∈ (resolveRef env overrides ri).1 ∧
    (∀ pd ∈ manifests,
      ("\n(" ++ pd.platform ++ ") " ++ indexDisplayName ri ++ "@" ++ pd.digest)
        ∈ indexLines ri manifests) ∧
    workerInsert ri (resolveRef env overrides ri) fetched = fetched ∧
    (∀ env2 : ResolveEnv, ∀ ov2 ri2 r,
      hasTarSuffix (rewriteReference ri2.Reference ov2) = true →
      (resolveRef env2 ov2 ri2).2 ≠ .error (.resolvedToIndex r)) ∧
    (∀ env2 : ResolveEnv, ∀ ov2 ri2 e r,
      hasTarSuffix (rewriteReference ri2.Reference ov2) = false →
      env2.parseRef (rewriteReference ri2.Reference ov2) = .ok () →
      env2.get (rewriteReference ri2.Reference ov2) = .error e →
      (resolveRef env2 ov2 ri2).2 ≠ .error (.resolvedToIndex r)) := by
  refine ⟨?_, ?_, ?_, ?_, ?_, ?_⟩
  · simp [resolveRef, hnotar, hparse, hget, hpull, indexCheck, hman, hidx, hdig]
  · simp [resolveRef, hnotar, hparse, hget, hpull, indexCheck, hman, hidx, hdig]
  · intro pd hpd
    simp only [indexLines, List.mem_cons, List.mem_map]
    exact Or.inr ⟨pd, hpd, rfl⟩
  · simp [workerInsert, resolveRef, hnotar, hparse, hget, hpull, indexCheck, hman,
      hidx, hdig]
  · intro env2 ov2 ri2 r htar
    cases hl : env2.load (rewriteReference ri2.Reference ov2) with
    | error e2 => simp [resolveRef, htar, hl]
    | ok img2 => simp [resolveRef, htar, hl, indexCheck]
  · intro env2 ov2 ri2 e r hnt2 hp2 hg2
    by_cases hc : strContains e rateLimitNeedle
    · have := (resolveRef_get_error env2 ov2 ri2 e hnt2 hp2 hg2).1 hc
      simp [this]
    · exact ((resolveRef_get_error env2 ov2 ri2 e hnt2 hp2 hg2).2
        (by simpa using hc)).2 r

/-- Witness for C3: a concrete environment whose remote fetch returns an OCI
image index while a digest was requested. -/
theorem index_rejection_witness :
    (resolveRef idxEnv [] idxRef).2 = .error (.resolvedToIndex "docker.io/foo@sha256:abcd") :=
  (index_rejection idxEnv [] idxRef
    ⟨ociImageIndexMT, some [⟨"linux/amd64", "sha256:aa"⟩, ⟨"linux/arm64", "sha256:bb"⟩]⟩
    [⟨"linux/amd64", "sha256:aa"⟩, ⟨"linux/arm64", "sha256:bb"⟩]
    "img0" [] (by decide) rfl rfl rfl (by decide) (by decide) rfl).1

/-! ## C4 -/

/-- C4: when the remote descriptor fetch fails with an error carrying the 429
"Too Many Requests" text, the resolver returns the rate-limit error at once
and the daemon fallback is never attempted for that reference; any other
remote fetch failure does reach the daemon fallback. -/
theorem rate_limit_short_circuit (env : ResolveEnv) (ov : List (String × String))
    (ri : RefInfo) (e : String)
    (hnt : hasTarSuffix (rewriteReference ri.Reference ov) = false)
    (hp : env.parseRef (rewriteReference ri.Reference ov) = .ok ())
    (hg : env.get (rewriteReference ri.Reference ov) = .error e) :
    (strContains e rateLimitNeedle = true →
      (resolveRef env ov ri).2 = .error (.rateLimited e) ∧
      Effect.daemonConnect ∉ (resolveRef env ov ri).1) ∧
    (strContains e rateLimitNeedle = false →
      Effect.daemonConnect ∈ (resolveRef env ov ri).1) := by
  constructor
  · intro hc
    have := (resolveRef_get_error env ov ri e hnt hp hg).1 hc
    simp [this]
  · intro hc
    exact ((resolveRef_get_error env ov ri e hnt hp hg).2 hc).1

/-- Witness for C4: a concrete 429 failure is returned as a rate-limit error
with no daemon connection attempted. -/
theorem rate_limit_short_circuit_witness :
    (resolveRef rlEnv [] rlRef).2
      = .error (.rateLimited "GET https://r/v2/: unexpected status code 429 Too Many Requests") ∧
    Effect.daemonConnect ∉ (resolveRef rlEnv [] rlRef).1 :=
  (rate_limit_short_circuit rlEnv [] rlRef
    "GET https://r/v2/: unexpected status code 429 Too Many Requests"
    (by decide) rfl rfl).1 (by decide)

/-! ## C7 -/

/-- C7: per layer of the image handed to cleanup: an absent cache file is a
no-op with no error; a present file with the wrong size is deleted when
`os.Remove` succeeds, and a removal failure comes back wrapped as the
per-layer error; a present file with the recorded size is untouched; any
other stat error is the per-layer failure — and the operation reports no
error iff no layer contributed an error (stat failure or removal failure). -/
theorem cleanup_size_mismatch (stat : FPath → StatR) (remove : FPath → Option String)
    (g : FPath) (l : CLayer) (layers : List CLayer) :
    (stat (layerCacheLocation g l) = .absent →
      cleanupLayer stat remove g l = .untouched) ∧
    (∀ sz, stat (layerCacheLocation g l) = .file sz → sz ≠ l.size →
      remove (layerCacheLocation g l) = none →
      cleanupLayer stat remove g l = .removed) ∧
    (∀ sz e, stat (layerCacheLocation g l) = .file sz → sz ≠ l.size →
      remove (layerCacheLocation g l) = some e →
      cleanupLayer stat remove g l
        = .removeFailed ("failed to remove incomplete layer " ++ l.hex ++ ": " ++ e)) ∧
    (stat (layerCacheLocation g l) = .file l.size →
      cleanupLayer stat remove g l = .untouched) ∧
    (∀ e, stat (layerCacheLocation g l) = .statFailed e →
      cleanupLayer stat remove g l = .failed e) ∧
    ((CleanupInProgressLayersM stat remove g layers).2 = none
      ↔ ∀ l2 ∈ layers, cleanupActErr (cleanupLayer stat remove g l2) = none) := by
  refine ⟨?_, ?_, ?_, ?_, ?_, ?_⟩
  · intro h; simp [cleanupLayer, h]
  · intro sz h hne hrm; simp [cleanupLayer, h, hne, hrm]
  · intro sz e h hne hrm; simp [cleanupLayer, h, hne, hrm]
  · intro h; simp [cleanupLayer, h]
  · intro e h; simp [cleanupLayer, h]
  · induction layers with
    | nil => simp [CleanupInProgressLayersM]
    | cons l2 rest ih =>
      simp only [CleanupInProgressLayersM, List.map_cons, List.findSome?_cons] at *
      cases hact : cleanupActErr (cleanupLayer stat remove g l2) with
      | none =>
        simp only [hact]
        simp [ih, hact]
      | some e => simp [hact]

/-- Witness for C7: a concrete cache state where the blob of digest dd has
size 7 on disk while the layer records size 5 and removal succeeds — cleanup
deletes it. -/
theorem cleanup_size_mismatch_witness :
    cleanupLayer wStat wRemove ["gc"] ⟨"dd", 5⟩ = .removed :=
  (cleanup_size_mismatch wStat wRemove ["gc"] ⟨"dd", 5⟩ []).2.1 7 (by decide)
    (by decide) rfl

/-! ## C10 -/

theorem append_single_inj {α : Type} (xs ys : List α) (a b : α)
    (h : xs ++ [a] = ys ++ [b]) : xs = ys ∧ a = b := by
  have h2 := congrArg List.reverse h
  simp only [List.reverse_append, List.reverse_cons, List.reverse_nil, List.nil_append,
    List.singleton_append, List.cons.injEq] at h2
  exact ⟨List.reverse_injective h2.2, h2.1⟩

/-- C10: cleanup derives the locations it stats and deletes from the
process-global cache path joined with the images subdirectory, not from the
`CacheDirectory` of the Pull configuration: the inspected paths are identical
for any two configurations (in particular two differing only in
CacheDirectory); and whenever the cache directory handed to Pull is not that global
location, no inspected path equals any path the layer cache wrote. -/
theorem cleanup_ignores_cache_directory (g : FPath) (cfg1 cfg2 : PullConfig)
    (layers : List CLayer)
    (hne : cfg1.CacheDirectory ≠ g ++ [imagesSubdir]) :
    pullCleanupInspectedPaths g cfg1 layers = pullCleanupInspectedPaths g cfg2 layers ∧
    ∀ l1 ∈ layers, ∀ l2 : CLayer,
      layerCacheLocation g l1 ≠ layerCacheWriteLocation cfg1 l2 := by
  refine ⟨rfl, ?_⟩
  intro l1 _ l2 heq
  have h2 : (g ++ [imagesSubdir]) ++ [digestString l1.hex]
      = cfg1.CacheDirectory ++ [digestString l2.hex] := by
    simpa [layerCacheLocation, layerCacheWriteLocation] using heq
  exact hne ((append_single_inj _ _ _ _ h2).1.symm)

/-- Witness for C10 at concrete configurations differing only in
CacheDirectory. -/
theorem cleanup_ignores_cache_directory_witness :
    pullCleanupInspectedPaths ["gc"] wCfg1 [⟨"dd", 5⟩]
      = pullCleanupInspectedPaths ["gc"] wCfg2 [⟨"dd", 5⟩] :=
  (cleanup_ignores_cache_directory ["gc"] wCfg1 wCfg2 [⟨"dd", 5⟩] (by decide)).1

/-! ## Helper lemmas: save strategies -/

theorem saveSequentialM_saved (e : SeqEnv) (m : List (RefInfo × String)) :
    (SaveSequentialM e m).saved
      = m.takeWhile (fun p => (e.appendErr p.1).isNone) := by
  induction m with
  | nil => rfl
  | cons p rest ih =>
    obtain ⟨info, img⟩ := p
    cases h : e.appendErr info with
    | some er => simp [SaveSequentialM, h, List.takeWhile_cons]
    | none => simp [SaveSequentialM, h, List.takeWhile_cons, ih]

theorem saveSequentialM_layout (e : SeqEnv) (m : List (RefInfo × String)) :
    (SaveSequentialM e m).layout
      = (m.takeWhile (fun p => (e.appendErr p.1).isNone)).map
          (fun p => (p.2, [(baseImageNameKey, p.1.Reference)])) := by
  induction m with
  | nil => rfl
  | cons p rest ih =>
    obtain ⟨info, img⟩ := p
    cases h : e.appendErr info with
    | some er => simp [SaveSequentialM, h, List.takeWhile_cons]
    | none => simp [SaveSequentialM, h, List.takeWhile_cons, ih]

theorem saveSequentialM_err (e : SeqEnv) (m : List (RefInfo × String)) :
    (SaveSequentialM e m).err
      = match m.dropWhile (fun p => (e.appendErr p.1).isNone) with
        | [] => none
        | p :: _ => e.appendErr p.1 := by
  induction m with
  | nil => rfl
  | cons p rest ih =>
    obtain ⟨info, img⟩ := p
    cases h : e.appendErr info with
    | some er => simp [SaveSequentialM, h, List.dropWhile_cons]
    | none => simp [SaveSequentialM, h, List.dropWhile_cons, ih]

theorem saveSequentialM_saved_sublist (e : SeqEnv) (m : List (RefInfo × String)) :
    (SaveSequentialM e m).saved.Sublist m := by
  induction m with
  | nil => simp [SaveSequentialM]
  | cons p rest ih =>
    obtain ⟨info, img⟩ := p
    cases h : e.appendErr info with
    | some er => simp [SaveSequentialM, h]
    | none =>
      simp only [SaveSequentialM, h]
      exact List.Sublist.cons₂ _ ih

theorem saveSequentialM_ok (e : SeqEnv) (m : List (RefInfo × String))
    (h : (SaveSequentialM e m).err = none) : (SaveSequentialM e m).saved = m := by
  induction m with
  | nil => rfl
  | cons p rest ih =>
    obtain ⟨info, img⟩ := p
    cases ha : e.appendErr info with
    | some er => simp [SaveSequentialM, ha] at h
    | none =>
      simp only [SaveSequentialM, ha] at h ⊢
      rw [ih h]

theorem saveConcurrentM_ok (c : ConcEnv) (m : List (RefInfo × String))
    (h : (SaveConcurrentM c m).2 = true) : (SaveConcurrentM c m).1 = m := by
  simp only [SaveConcurrentM] at h ⊢
  exact List.filter_eq_self.mpr (List.all_eq_true.mp h)

theorem mem_removeSaved (t s : List (RefInfo × String)) (p : RefInfo × String) :
    p ∈ removeSaved t s ↔ p ∈ t ∧ p.1 ∉ s.map Prod.fst := by
  simp [removeSaved]

theorem removeSaved_sublist (t s : List (RefInfo × String)) :
    (removeSaved t s).Sublist t := List.filter_sublist t

theorem key_unique {t : List (RefInfo × String)}
    (ht : (t.map Prod.fst).Nodup) {p q : RefInfo × String}
    (hp : p ∈ t) (hq : q ∈ t) (hk : p.1 = q.1) : p = q :=
  List.inj_on_of_nodup_map ht hp hq hk

theorem mem_split_removeSaved (t a : List (RefInfo × String))
    (ht : (t.map Prod.fst).Nodup) (ha : a.Sublist t) (p : RefInfo × String) :
    p ∈ t ↔ p ∈ a ∨ p ∈ removeSaved t a := by
  constructor
  · intro hp
    by_cases hk : p.1 ∈ a.map Prod.fst
    · left
      obtain ⟨q, hq, hq1⟩ := List.mem_map.mp hk
      have hpq := key_unique ht hp (ha.subset hq) hq1.symm
      rw [hpq]; exact hq
    · right; exact (mem_removeSaved t a p).mpr ⟨hp, hk⟩
  · rintro (hm | hm)
    · exact ha.subset hm
    · exact (removeSaved_sublist t a).subset hm

theorem nodup_keys_append (t a rest : List (RefInfo × String))
    (ht : (t.map Prod.fst).Nodup) (ha : a.Sublist t)
    (hrest : (rest.map Prod.fst).Nodup)
    (hsub : ∀ p ∈ rest, p ∈ removeSaved t a) :
    ((a ++ rest).map Prod.fst).Nodup := by
  rw [List.map_append, List.nodup_append]
  refine ⟨(ha.map Prod.fst).nodup ht, hrest, ?_⟩
  intro x hxa hxr
  obtain ⟨p, hp, rfl⟩ := List.mem_map.mp hxr
  exact ((mem_removeSaved t a p).mp (hsub p hp)).2 hxa

/-! ## C8 -/

/-- C8: SaveSequential saves exactly the longest prefix of images whose append
succeeds, each appended layout entry carrying a base-image-name annotation
equal to the raw reference of the image; its error is the first append failure
(none when every append succeeds, in which case everything is saved); and the
cleanup outcome never changes the returned error or the saved set. -/
theorem save_sequential_stops_at_failure (e : SeqEnv) (m : List (RefInfo × String)) :
    (SaveSequentialM e m).saved = m.takeWhile (fun p => (e.appendErr p.1).isNone) ∧
    (SaveSequentialM e m).layout
      = (m.takeWhile (fun p => (e.appendErr p.1).isNone)).map
          (fun p => (p.2, [(baseImageNameKey, p.1.Reference)])) ∧
    (SaveSequentialM e m).err
      = (match m.dropWhile (fun p => (e.appendErr p.1).isNone) with
         | [] => none
         | p :: _ => e.appendErr p.1) ∧
    (∀ c2 : RefInfo → Option String,
      (SaveSequentialM ⟨e.appendErr, c2⟩ m).err = (SaveSequentialM e m).err ∧
      (SaveSequentialM ⟨e.appendErr, c2⟩ m).saved = (SaveSequentialM e m).saved) :=
  ⟨saveSequentialM_saved e m, saveSequentialM_layout e m, saveSequentialM_err e m,
   fun c2 => ⟨(saveSequentialM_err ⟨e.appendErr, c2⟩ m).trans (saveSequentialM_err e m).symm,
     (saveSequentialM_saved ⟨e.appendErr, c2⟩ m).trans (saveSequentialM_saved e m).symm⟩⟩

/-! ## C9 -/

/-- C9: both save strategies return a saved map that is a submap of their
input map — a sublist of the input association list, hence every returned key
is an input key bound to the same image handle — so deleting saved keys from
the work set is well-defined and the work set only shrinks. -/
theorem save_strategies_submap (e : SeqEnv) (c : ConcEnv) (m : List (RefInfo × String)) :
    (SaveSequentialM e m).saved.Sublist m ∧
    (SaveConcurrentM c m).1.Sublist m ∧
    (removeSaved m (SaveSequentialM e m).saved).Sublist m ∧
    (removeSaved m (SaveConcurrentM c m).1).Sublist m :=
  ⟨saveSequentialM_saved_sublist e m, List.filter_sublist m,
   List.filter_sublist m, List.filter_sublist m⟩

/-! ## C2 -/

/-- C2: across the whole save orchestration (concurrent save retried up to 2
attempts, then sequential save over the remainder retried up to 2 attempts,
with the successfully saved keys removed from the work set after every
attempt), no image reference is saved by two attempts; and when the
orchestration succeeds, the union of the images saved by the executed
attempts is exactly the original fetched set. -/
theorem save_orchestration_no_double_save (e1 e2 : ConcEnv) (s1 s2 : SeqEnv)
    (fetched : List (RefInfo × String))
    (h : (fetched.map Prod.fst).Nodup) :
    ((pullSaveOrchestration e1 e2 s1 s2 fetched).attempts.flatten.map Prod.fst).Nodup ∧
    ((pullSaveOrchestration e1 e2 s1 s2 fetched).ok = true →
      ∀ p, p ∈ (pullSaveOrchestration e1 e2 s1 s2 fetched).attempts.flatten
        ↔ p ∈ fetched) := by
  simp only [pullSaveOrchestration]
  set r1 := SaveConcurrentM e1 fetched with hr1
  set t1 := removeSaved fetched r1.1 with hT1
  set r2 := SaveConcurrentM e2 t1 with hr2
  set t2 := removeSaved t1 r2.1 with hT2
  set r3 := SaveSequentialM s1 t2 with hr3
  set t3 := removeSaved t2 r3.saved with hT3
  set r4 := SaveSequentialM s2 t3 with hr4
  have ha1 : r1.1.Sublist fetched := List.filter_sublist _
  have ha2 : r2.1.Sublist t1 := List.filter_sublist _
  have ha3 : r3.saved.Sublist t2 := saveSequentialM_saved_sublist _ _
  have ha4 : r4.saved.Sublist t3 := saveSequentialM_saved_sublist _ _
  have hk1 : (t1.map Prod.fst).Nodup :=
    List.Nodup.sublist ((removeSaved_sublist _ _).map Prod.fst) h
  have hk2 : (t2.map Prod.fst).Nodup :=
    List.Nodup.sublist ((removeSaved_sublist _ _).map Prod.fst) hk1
  have hk3 : (t3.map Prod.fst).Nodup :=
    List.Nodup.sublist ((removeSaved_sublist _ _).map Prod.fst) hk2
  by_cases h1 : r1.2 = true
  · simp only [h1, if_true, List.flatten_cons, List.flatten_nil, List.append_nil]
    constructor
    · exact List.Nodup.sublist (ha1.map Prod.fst) h
    · intro _ p
      have e : r1.1 = fetched := saveConcurrentM_ok e1 fetched h1
      rw [e]
  · simp only [h1, if_false, Bool.false_eq_true]
    by_cases h2 : r2.2 = true
    · simp only [h2, if_true, List.flatten_cons, List.flatten_nil, List.append_nil]
      constructor
      · exact nodup_keys_append fetched r1.1 r2.1 h ha1
          (List.Nodup.sublist (ha2.map Prod.fst) hk1) (fun p hp => ha2.subset hp)
      · intro _ p
        have e : r2.1 = t1 := saveConcurrentM_ok e2 t1 h2
        rw [List.mem_append, e]
        exact (mem_split_removeSaved fetched r1.1 h ha1 p).symm
    · simp only [h2, if_false, Bool.false_eq_true]
      by_cases h3 : r3.err.isNone = true
      · simp only [h3, if_true, List.flatten_cons, List.flatten_nil, List.append_nil]
        have inner : ((r2.1 ++ r3.saved).map Prod.fst).Nodup :=
          nodup_keys_append t1 r2.1 r3.saved hk1 ha2
            (List.Nodup.sublist (ha3.map Prod.fst) hk2) (fun p hp => ha3.subset hp)
        constructor
        · refine nodup_keys_append fetched r1.1 (r2.1 ++ r3.saved) h ha1 inner ?_
          intro p hp
          rcases List.mem_append.mp hp with hp2 | hp3
          · exact ha2.subset hp2
          · exact (removeSaved_sublist t1 r2.1).subset (ha3.subset hp3)
        · intro _ p
          have e3 : r3.saved = t2 :=
            saveSequentialM_ok s1 t2 (Option.isNone_iff_eq_none.mp h3)
          have hsp1 : p ∈ fetched ↔ p ∈ r1.1 ∨ p ∈ t1 :=
            mem_split_removeSaved fetched r1.1 h ha1 p
          have hsp2 : p ∈ t1 ↔ p ∈ r2.1 ∨ p ∈ t2 :=
            mem_split_removeSaved t1 r2.1 hk1 ha2 p
          rw [List.mem_append, List.mem_append, e3, ← hsp2, ← hsp1]
      · simp only [h3, if_false, Bool.false_eq_true, List.flatten_cons,
          List.flatten_nil, List.append_nil]
        have inner2 : ((r3.saved ++ r4.saved).map Prod.fst).Nodup :=
          nodup_keys_append t2 r3.saved r4.saved hk2 ha3
            (List.Nodup.sublist (ha4.map Prod.fst) hk3) (fun p hp => ha4.subset hp)
        have hsub1 : ∀ p ∈ r3.saved ++ r4.saved, p ∈ t2 := by
          intro p hp
          rcases List.mem_append.mp hp with hp3 | hp4
          · exact ha3.subset hp3
          · exact (removeSaved_sublist t2 r3.saved).subset (ha4.subset hp4)
        have inner1 : ((r2.1 ++ (r3.saved ++ r4.saved)).map Prod.fst).Nodup :=
          nodup_keys_append t1 r2.1 (r3.saved ++ r4.saved) hk1 ha2 inner2 hsub1
        constructor
        · refine nodup_keys_append fetched r1.1 (r2.1 ++ (r3.saved ++ r4.saved))
            h ha1 inner1 ?_
          intro p hp
          rcases List.mem_append.mp hp with hp2 | hp34
          · exact ha2.subset hp2
          · exact (removeSaved_sublist t1 r2.1).subset (hsub1 p hp34)
        · intro hok p
          have e4 : r4.saved = t3 :=
            saveSequentialM_ok s2 t3 (Option.isNone_iff_eq_none.mp hok)
          have hsp1 : p ∈ fetched ↔ p ∈ r1.1 ∨ p ∈ t1 :=
            mem_split_removeSaved fetched r1.1 h ha1 p
          have hsp2 : p ∈ t1 ↔ p ∈ r2.1 ∨ p ∈ t2 :=
            mem_split_removeSaved t1 r2.1 hk1 ha2 p
          have hsp3 : p ∈ t2 ↔ p ∈ r3.saved ∨ p ∈ t3 :=
            mem_split_removeSaved t2 r3.saved hk2 ha3 p
          rw [List.mem_append, List.mem_append, List.mem_append, e4,
            ← hsp3, ← hsp2, ← hsp1]

/-- Witness for C2: a concrete two-image batch where both concurrent attempts
and the first sequential attempt fail on the second image and the final
sequential attempt succeeds. -/
theorem save_orchestration_no_double_save_witness :
    ((pullSaveOrchestration wConc wConc wSeqFail wSeqOk
        [(wRef1, "i1"), (wRef2, "i2")]).attempts.flatten.map Prod.fst).Nodup :=
  (save_orchestration_no_double_save wConc wConc wSeqFail wSeqOk
    [(wRef1, "i1"), (wRef2, "i2")] (by decide)).1

/-! ## C5 -/

/-- C5 (code-bug demonstration): the repair pass calls `os.Rename(path, hash)`
with the BARE hash string — a path relative to the process working directory —
instead of a path inside the blob directory.  On a store holding a wrongly
named blob (content hashing to bbbb, stored as aaaa) and a correctly named
blob (content hashing to cccc, stored as cccc), the pass moves BOTH files into
the working directory: the wrongly named blob does not end up at
blobDirectory/bbbb as the claim requires, and the correctly named blob is not
left unchanged.  The pass as the spec describes it (`repairPassSpec`) instead
renames within the blob directory and leaves the correctly named blob alone. -/
theorem blob_repair_renames_out_of_blob_dir :
    repairPass demoHash ["work"] (blobDirectory ["dst"]) demoFs
      = [(["work", "cccc"], "other"), (["work", "bbbb"], "content")] ∧
    lookupFs (repairPass demoHash ["work"] (blobDirectory ["dst"]) demoFs)
      (blobDirectory ["dst"] ++ ["bbbb"]) = none ∧
    lookupFs (repairPass demoHash ["work"] (blobDirectory ["dst"]) demoFs)
      (blobDirectory ["dst"] ++ ["cccc"]) = none ∧
    repairPassSpec demoHash (blobDirectory ["dst"]) demoFs
      = [(blobDirectory ["dst"] ++ ["bbbb"], "content"),
         (blobDirectory ["dst"] ++ ["cccc"], "other")] := by
  refine ⟨?_, ?_, ?_, ?_⟩ <;> decide

end Zarf
